import Mathlib

/-!
Shallow embedding of `tensorflow/core/kernels/tensor_map.h` (class `TensorMap`):
a reference-counted handle around a heap-allocated `Tensors` block holding an
`absl::flat_hash_map<TensorKey, Tensor>`.  Machine state is made explicit: a
`Heap` of `Tensors` blocks (a slot becomes `none` once the block is freed), and
handles carry an optional block index (`none` models a null `tensors_` pointer,
the moved-from state).  The hash table is modelled as an association list whose
order stands for the (unspecified) iteration order of the hash map.
-/

namespace TensorMapSpec

/-- `DataType` tag (`element_dtype`); a few representative constructors. -/
inductive DataType where
  | DT_INVALID : DataType
  | DT_FLOAT : DataType
  | DT_INT32 : DataType
  | DT_VARIANT : DataType
deriving DecidableEq

/-- `PartialTensorShape`: a list of dimension sizes, `-1` for unknown. -/
structure PartialTensorShape where
  dims : List Int
deriving DecidableEq

/-- Opaque `Tensor` value.  `defaultT` models a default-constructed `Tensor()`,
`scalarInt n` models the scalar constructor `Tensor(n)` (so `Tensor(0)` is
`scalarInt 0`), `payload n` models an arbitrary opaque tensor. -/
inductive Tensor where
  | defaultT : Tensor
  | scalarInt : Int → Tensor
  | payload : Nat → Tensor
deriving DecidableEq

/-- `TensorKey`: a wrapper around `Tensor` with equality and hashing, used as
the hash-map key; the cast `(Tensor)key` is `TensorKey.val`. -/
structure TensorKey where
  val : Tensor
deriving DecidableEq

/-- `absl::flat_hash_map<TensorKey, Tensor>`: association list, unique keys. -/
abbrev FlatHashMap := List (TensorKey × Tensor)

/-- `values_.find(key)` as a value lookup (`some` iff the key is present). -/
def FlatHashMap.findVal : FlatHashMap → TensorKey → Option Tensor
  | [], _ => none
  | (k, v) :: rest, key => if k = key then some v else FlatHashMap.findVal rest key

/-- `values_.try_emplace(key, value)`: inserts only if the key is absent;
returns the updated table and `r.second` (whether insertion happened). -/
def FlatHashMap.tryEmplace (m : FlatHashMap) (k : TensorKey) (v : Tensor) :
    FlatHashMap × Bool :=
  match FlatHashMap.findVal m k with
  | some _ => (m, false)
  | none => (m ++ [(k, v)], true)

/-- `values_[k] = v`: unconditionally sets `k ↦ v`, inserting if absent. -/
def FlatHashMap.setVal (m : FlatHashMap) (k : TensorKey) (v : Tensor) :
    FlatHashMap :=
  match FlatHashMap.findVal m k with
  | some _ => m.map (fun p => if p.1 = k then (k, v) else p)
  | none => m ++ [(k, v)]

/-- `values_[k]` as an rvalue: returns the table after the access and the
referenced value (default-constructs the mapped value if the key is absent). -/
def FlatHashMap.subscript (m : FlatHashMap) (k : TensorKey) :
    FlatHashMap × Tensor :=
  match FlatHashMap.findVal m k with
  | some v => (m, v)
  | none => (m ++ [(k, Tensor.defaultT)], Tensor.defaultT)

/-- `values_.erase(key)`: removes the entry if present, returns count removed. -/
def FlatHashMap.eraseKey (m : FlatHashMap) (k : TensorKey) : FlatHashMap × Nat :=
  match FlatHashMap.findVal m k with
  | some _ => (m.filter (fun p => p.1 != k), 1)
  | none => (m, 0)

/-- The `TensorMap::Tensors` block (a `core::RefCounted` holding `values_`);
the reference count is explicit. -/
structure Tensors where
  values_ : FlatHashMap
  refcount : Nat
deriving DecidableEq

/-- List indexing for heap slots (total, `none` out of bounds). -/
def listGet : List (Option Tensors) → Nat → Option Tensors
  | [], _ => none
  | x :: _, 0 => x
  | _ :: rest, n + 1 => listGet rest n

/-- List update for heap slots (no-op out of bounds). -/
def listSet : List (Option Tensors) → Nat → Option Tensors → List (Option Tensors)
  | [], _, _ => []
  | _ :: rest, 0, y => y :: rest
  | x :: rest, n + 1, y => x :: listSet rest n y

/-- The heap of `Tensors` blocks; a slot holds `none` after its block is freed. -/
structure Heap where
  blocks : List (Option Tensors)
deriving DecidableEq

def Heap.get (h : Heap) (p : Nat) : Option Tensors :=
  listGet h.blocks p

def Heap.set (h : Heap) (p : Nat) (t : Option Tensors) : Heap :=
  ⟨listSet h.blocks p t⟩

/-- `new Tensors`: appends a fresh live block, returning its address. -/
def Heap.alloc (h : Heap) (t : Tensors) : Heap × Nat :=
  (⟨h.blocks ++ [some t]⟩, h.blocks.length)

/-- Modelled from the spec: `core::RefCounted::Ref` (framework code outside
this header) — "SharedStorage reference is shared (refcount incremented by
1)"; called as `tensors_->Ref()`. -/
def Heap.refBlock (h : Heap) (p : Nat) : Heap :=
  match h.get p with
  | some t => h.set p (some { t with refcount := t.refcount + 1 })
  | none => h

/-- Modelled from the spec: `core::RefCounted::Unref` (framework code outside
this header) decrements the count and frees the block exactly when the count
reaches zero ("freed exactly once, when its count transitions to 0"). -/
def Heap.unrefBlock (h : Heap) (p : Nat) : Heap :=
  match h.get p with
  | some t =>
      if t.refcount ≤ 1 then h.set p none
      else h.set p (some { t with refcount := t.refcount - 1 })
  | none => h

/-- The `TensorMap` handle: three header fields held by value plus the
`tensors_` pointer (`none` models a null pointer / moved-from state). -/
structure TensorMap where
  element_shape : PartialTensorShape
  element_dtype : DataType
  max_num_elements : Int
  tensors_ : Option Nat
deriving DecidableEq

/-- `TensorMap() : tensors_(new Tensors)`: allocates a new empty `Tensors`
block; header fields take default values (`max_num_elements = -1`).  The
initial count 1 is modelled from the spec ("allocates a new, empty
SharedStorage with refcount 1"), `core::RefCounted`'s constructor being
outside this header. -/
def TensorMap.ctor (h : Heap) : Heap × TensorMap :=
  let r := Heap.alloc h ⟨[], 1⟩
  (r.1, ⟨⟨[]⟩, DataType.DT_INVALID, -1, some r.2⟩)

/-- `TensorMap(const TensorMap&)`: copies the header fields, shares the
`tensors_` pointer and calls `tensors_->Ref()`. -/
def TensorMap.copyCtor (h : Heap) (other : TensorMap) : Heap × TensorMap :=
  match other.tensors_ with
  | some p => (Heap.refBlock h p,
      ⟨other.element_shape, other.element_dtype, other.max_num_elements, some p⟩)
  | none => (h, other)

/-- `operator=(const TensorMap&)`: no-op on self-assignment (`this == &rhs`,
modelled by `isSelf`); otherwise copies headers, unrefs the assignee's old
block, then shares and refs `rhs`'s block. -/
def TensorMap.copyAssign (h : Heap) (isSelf : Bool) (this rhs : TensorMap) :
    Heap × TensorMap :=
  if isSelf then (h, this)
  else
    match this.tensors_, rhs.tensors_ with
    | some pd, some ps =>
        let h1 := Heap.unrefBlock h pd
        let h2 := Heap.refBlock h1 ps
        (h2, ⟨rhs.element_shape, rhs.element_dtype, rhs.max_num_elements, some ps⟩)
    | _, _ => (h, this)

/-- `TensorMap(TensorMap&&)`: headers moved, pointer relocated with no
refcount change, `rhs.tensors_ = nullptr`.  Returns (heap, new handle,
moved-from `rhs`). -/
def TensorMap.moveCtor (h : Heap) (rhs : TensorMap) :
    Heap × TensorMap × TensorMap :=
  (h, ⟨rhs.element_shape, rhs.element_dtype, rhs.max_num_elements, rhs.tensors_⟩,
      { rhs with tensors_ := none })

/-- `operator=(TensorMap&&)`: no-op on self-move; otherwise copies headers and
`std::swap(tensors_, rhs.tensors_)` — no refcount change.  Returns (heap,
assignee after, `rhs` after). -/
def TensorMap.moveAssign (h : Heap) (isSelf : Bool) (this rhs : TensorMap) :
    Heap × TensorMap × TensorMap :=
  if isSelf then (h, this, rhs)
  else (h, ⟨rhs.element_shape, rhs.element_dtype, rhs.max_num_elements, rhs.tensors_⟩,
          { rhs with tensors_ := this.tensors_ })

/-- Modelled from the spec: `~TensorMap()` (defined outside this header)
releases the `SharedStorage` reference — decrement, free when the count
reaches zero — and a moved-from (null) handle releases nothing, so its
destruction cannot free a block a second time. -/
def TensorMap.destruct (h : Heap) (m : TensorMap) : Heap :=
  match m.tensors_ with
  | some p => Heap.unrefBlock h p
  | none => h

/-- `tensors()`: the handle's view of the underlying table (empty on a dead
or null reference, which the code never dereferences). -/
def TensorMap.tensorsOf (h : Heap) (m : TensorMap) : FlatHashMap :=
  match m.tensors_ with
  | some p =>
      match h.get p with
      | some t => t.values_
      | none => []
  | none => []

/-- Applies a table transformation to the handle's block in place. -/
def Heap.updateValues (h : Heap) (p : Nat) (f : FlatHashMap → FlatHashMap) :
    Heap :=
  match h.get p with
  | some t => h.set p (some { t with values_ := f t.values_ })
  | none => h

/-- `insert(key, value)`: `try_emplace` into the shared table, returning
whether the insertion happened. -/
def TensorMap.insert (h : Heap) (m : TensorMap) (k : TensorKey) (v : Tensor) :
    Heap × Bool :=
  match m.tensors_ with
  | some p =>
      match h.get p with
      | some t =>
          let r := FlatHashMap.tryEmplace t.values_ k v
          (h.set p (some { t with values_ := r.1 }), r.2)
      | none => (h, false)
  | none => (h, false)

/-- `find(key)`: iterator to the found entry or end, as an `Option`. -/
def TensorMap.find (h : Heap) (m : TensorMap) (k : TensorKey) : Option Tensor :=
  FlatHashMap.findVal (TensorMap.tensorsOf h m) k

/-- `lookup(key)`: `find(key)->second`; dereferencing `end` (absent key) is
undefined behaviour, modelled by `Option`. -/
def TensorMap.lookup (h : Heap) (m : TensorMap) (k : TensorKey) : Option Tensor :=
  FlatHashMap.findVal (TensorMap.tensorsOf h m) k

/-- `operator[](k)`: returns the heap after the access and the referenced
value (default-inserting if `k` is absent). -/
def TensorMap.subscriptOp (h : Heap) (m : TensorMap) (k : TensorKey) :
    Heap × Tensor :=
  match m.tensors_ with
  | some p =>
      match h.get p with
      | some t =>
          let r := FlatHashMap.subscript t.values_ k
          (h.set p (some { t with values_ := r.1 }), r.2)
      | none => (h, Tensor.defaultT)
  | none => (h, Tensor.defaultT)

/-- `replace(k, v)`: `values_[k] = v`, then returns `true`. -/
def TensorMap.replace (h : Heap) (m : TensorMap) (k : TensorKey) (v : Tensor) :
    Heap × Bool :=
  match m.tensors_ with
  | some p => (Heap.updateValues h p (fun vals => FlatHashMap.setVal vals k v), true)
  | none => (h, true)

/-- `erase(key)`: removes the entry with the given key, returning the number
of elements removed. -/
def TensorMap.erase (h : Heap) (m : TensorMap) (k : TensorKey) : Heap × Nat :=
  match m.tensors_ with
  | some p =>
      match h.get p with
      | some t =>
          let r := FlatHashMap.eraseKey t.values_ k
          (h.set p (some { t with values_ := r.1 }), r.2)
      | none => (h, 0)
  | none => (h, 0)

/-- `size()`: number of entries in the shared table. -/
def TensorMap.size (h : Heap) (m : TensorMap) : Nat :=
  (TensorMap.tensorsOf h m).length

/-- `keys()`: as written in the source — `std::vector<Tensor> keys(size)`
value-initializes `size` default `Tensor`s, and the loop then `push_back`s
the cast of each key, so the result is the default block followed by the
keys. -/
def TensorMap.keys (h : Heap) (m : TensorMap) : List Tensor :=
  let vals := TensorMap.tensorsOf h m
  List.replicate vals.length Tensor.defaultT ++ vals.map (fun p => p.1.val)

/-- `RefCountIsOne()`: whether this handle's block has reference count 1. -/
def TensorMap.RefCountIsOne (h : Heap) (m : TensorMap) : Bool :=
  match m.tensors_ with
  | some p =>
      match h.get p with
      | some t => t.refcount == 1
      | none => false
  | none => false

/-- `Copy()`: `TensorMap out;` (fresh block, refcount 1), header fields
assigned from the source, `out.tensors_->values_ = tensors_->values_`. -/
def TensorMap.Copy (h : Heap) (m : TensorMap) : Heap × TensorMap :=
  let r := TensorMap.ctor h
  let out : TensorMap := ⟨m.element_shape, m.element_dtype, m.max_num_elements,
      r.2.tensors_⟩
  match out.tensors_ with
  | some p => (Heap.updateValues r.1 p (fun _ => TensorMap.tensorsOf r.1 m), out)
  | none => (r.1, out)

/-- The `Zeros` fill loop: `out.tensors_->values_.try_emplace(it->first,
Tensor(0))` over the source entries, accumulating into `acc`. -/
def FlatHashMap.zerosFill : FlatHashMap → FlatHashMap → FlatHashMap
  | [], acc => acc
  | (k, _) :: rest, acc =>
      FlatHashMap.zerosFill rest (FlatHashMap.tryEmplace acc k (Tensor.scalarInt 0)).1

/-- `Zeros()`: fresh handle with the source's header fields; its table gets
`try_emplace(key, Tensor(0))` for every source entry. -/
def TensorMap.Zeros (h : Heap) (m : TensorMap) : Heap × TensorMap :=
  let r := TensorMap.ctor h
  let out : TensorMap := ⟨m.element_shape, m.element_dtype, m.max_num_elements,
      r.2.tensors_⟩
  match out.tensors_ with
  | some p =>
      (Heap.updateValues r.1 p (fun _ => FlatHashMap.zerosFill (TensorMap.tensorsOf r.1 m) []),
       out)
  | none => (r.1, out)

/-- Modelled from the spec: the `VariantTensorData` payload produced by
`Encode` (whose body lives outside this header) — "the header fields (shape
descriptor, type tag, max size) and the full table contents (every key and
value)" as a sequence of sub-payloads, here restricted to the structurally
well-formed payloads. -/
structure VariantTensorData where
  element_shape : PartialTensorShape
  element_dtype : DataType
  max_num_elements : Int
  entries : List (TensorKey × Tensor)
deriving DecidableEq

/-- Modelled from the spec: `Encode` externalizes the header fields and the
full table contents in a stable order. -/
def TensorMap.Encode (h : Heap) (m : TensorMap) : VariantTensorData :=
  ⟨m.element_shape, m.element_dtype, m.max_num_elements, TensorMap.tensorsOf h m⟩

/-- Modelled from the spec: `Decode` fully overwrites the destination's table
and header from the payload, reconstructing a value-equal map that need not
share storage with the original; here the destination is a fresh handle. -/
def TensorMap.Decode (h : Heap) (d : VariantTensorData) : Heap × TensorMap :=
  let r := TensorMap.ctor h
  let out : TensorMap := ⟨d.element_shape, d.element_dtype, d.max_num_elements,
      r.2.tensors_⟩
  match out.tensors_ with
  | some p => (Heap.updateValues r.1 p (fun _ => d.entries), out)
  | none => (r.1, out)

/-! ### Concrete instances used to witness the theorems -/

def k1 : TensorKey := ⟨Tensor.payload 1⟩

def k2 : TensorKey := ⟨Tensor.payload 2⟩

def va : Tensor := Tensor.payload 10

def vb : Tensor := Tensor.payload 20

/-- Heap after `TensorMap a;` on an empty heap. -/
def hA : Heap := (TensorMap.ctor ⟨[]⟩).1

/-- The handle `a` produced by `TensorMap a;` on an empty heap. -/
def mA : TensorMap := (TensorMap.ctor ⟨[]⟩).2

/-- Heap after `a.insert(k1, va)`. -/
def hB : Heap := (TensorMap.insert hA mA k1 va).1

/-- `a`'s `Tensors` block after the insert. -/
def tB : Tensors := ⟨[(k1, va)], 1⟩

/-- Heap after a second `TensorMap c;` alongside `a`. -/
def hC : Heap := (TensorMap.ctor hA).1

/-- The second handle `c`, owning a distinct block. -/
def mC : TensorMap := (TensorMap.ctor hA).2

/-! ### Helper lemmas about the heap model -/

@[simp] theorem listGet_nil (n : Nat) : listGet [] n = none := rfl

@[simp] theorem listGet_cons_zero (x : Option Tensors) (xs : List (Option Tensors)) :
    listGet (x :: xs) 0 = x := rfl

@[simp] theorem listGet_cons_succ (x : Option Tensors) (xs : List (Option Tensors))
    (n : Nat) : listGet (x :: xs) (n + 1) = listGet xs n := rfl

@[simp] theorem listSet_nil (n : Nat) (y : Option Tensors) : listSet [] n y = [] := rfl

@[simp] theorem listSet_cons_zero (x : Option Tensors) (xs : List (Option Tensors))
    (y : Option Tensors) : listSet (x :: xs) 0 y = y :: xs := rfl

@[simp] theorem listSet_cons_succ (x : Option Tensors) (xs : List (Option Tensors))
    (n : Nat) (y : Option Tensors) :
    listSet (x :: xs) (n + 1) y = x :: listSet xs n y := rfl

theorem listGet_some_lt {l : List (Option Tensors)} {n : Nat} {t : Tensors}
    (h : listGet l n = some t) : n < l.length := by
  induction l generalizing n with
  | nil => simp at h
  | cons x xs ih =>
      cases n with
      | zero => simp
      | succ n => simpa using ih h

theorem listGet_append_lt {l l' : List (Option Tensors)} {n : Nat}
    (h : n < l.length) : listGet (l ++ l') n = listGet l n := by
  induction l generalizing n with
  | nil => simp at h
  | cons x xs ih =>
      cases n with
      | zero => simp
      | succ n => simpa using ih (by simpa using h)

theorem listGet_append_len (l l' : List (Option Tensors)) :
    listGet (l ++ l') l.length = listGet l' 0 := by
  induction l with
  | nil => simp
  | cons x xs ih => simpa using ih

theorem listSet_length (l : List (Option Tensors)) (n : Nat) (y : Option Tensors) :
    (listSet l n y).length = l.length := by
  induction l generalizing n with
  | nil => simp
  | cons x xs ih =>
      cases n with
      | zero => simp
      | succ n => simpa using ih n

theorem listGet_set_self {l : List (Option Tensors)} {n : Nat}
    (h : n < l.length) (y : Option Tensors) : listGet (listSet l n y) n = y := by
  induction l generalizing n with
  | nil => simp at h
  | cons x xs ih =>
      cases n with
      | zero => simp
      | succ n => simpa using ih (by simpa using h)

theorem listGet_set_ne {l : List (Option Tensors)} {n m : Nat}
    (h : n ≠ m) (y : Option Tensors) : listGet (listSet l m y) n = listGet l n := by
  induction l generalizing n m with
  | nil => simp
  | cons x xs ih =>
      cases m with
      | zero =>
          cases n with
          | zero => exact absurd rfl h
          | succ n => simp
      | succ m =>
          cases n with
          | zero => simp
          | succ n =>
              have hnm : n ≠ m := by omega
              simpa using ih hnm

theorem Heap.get_some_lt {h : Heap} {p : Nat} {t : Tensors}
    (hp : h.get p = some t) : p < h.blocks.length :=
  listGet_some_lt hp

theorem Heap.get_set_self {h : Heap} {p : Nat} (hp : p < h.blocks.length)
    (t' : Option Tensors) : (h.set p t').get p = t' :=
  listGet_set_self hp t'

theorem Heap.get_set_ne {h : Heap} {p q : Nat} (hne : p ≠ q)
    (t' : Option Tensors) : (h.set q t').get p = h.get p :=
  listGet_set_ne hne t'

theorem Heap.get_updateValues_ne {h : Heap} {p q : Nat} (hne : p ≠ q)
    (f : FlatHashMap → FlatHashMap) : (h.updateValues q f).get p = h.get p := by
  unfold Heap.updateValues
  cases hq : h.get q with
  | none => rfl
  | some t => exact Heap.get_set_ne hne _

theorem Heap.get_updateValues_self {h : Heap} {p : Nat} {t : Tensors}
    (ht : h.get p = some t) (f : FlatHashMap → FlatHashMap) :
    (h.updateValues p f).get p = some { t with values_ := f t.values_ } := by
  unfold Heap.updateValues
  rw [ht]
  exact Heap.get_set_self (Heap.get_some_lt ht) _

theorem Heap.get_refBlock_self {h : Heap} {p : Nat} {t : Tensors}
    (ht : h.get p = some t) :
    (h.refBlock p).get p = some { t with refcount := t.refcount + 1 } := by
  unfold Heap.refBlock
  rw [ht]
  exact Heap.get_set_self (Heap.get_some_lt ht) _

theorem Heap.get_refBlock_ne {h : Heap} {p q : Nat} (hne : p ≠ q) :
    (h.refBlock q).get p = h.get p := by
  unfold Heap.refBlock
  cases hq : h.get q with
  | none => rfl
  | some t => exact Heap.get_set_ne hne _

theorem Heap.get_unrefBlock_self {h : Heap} {p : Nat} {t : Tensors}
    (ht : h.get p = some t) :
    (h.unrefBlock p).get p =
      (if t.refcount ≤ 1 then none
       else some { t with refcount := t.refcount - 1 }) := by
  unfold Heap.unrefBlock
  rw [ht]
  by_cases hc : t.refcount ≤ 1
  · simp only [hc, if_true]
    exact Heap.get_set_self (Heap.get_some_lt ht) _
  · simp only [hc, if_false]
    exact Heap.get_set_self (Heap.get_some_lt ht) _

theorem Heap.get_unrefBlock_ne {h : Heap} {p q : Nat} (hne : p ≠ q) :
    (h.unrefBlock q).get p = h.get p := by
  unfold Heap.unrefBlock
  cases hq : h.get q with
  | none => rfl
  | some t =>
      by_cases hc : t.refcount ≤ 1
      · simp only [hc, if_true]
        exact Heap.get_set_ne hne _
      · simp only [hc, if_false]
        exact Heap.get_set_ne hne _

theorem Heap.get_alloc_lt {h : Heap} {p : Nat} (hp : p < h.blocks.length)
    (t : Tensors) : (h.alloc t).1.get p = h.get p :=
  listGet_append_lt hp

theorem Heap.get_alloc_new (h : Heap) (t : Tensors) :
    (h.alloc t).1.get (h.alloc t).2 = some t := by
  show listGet (h.blocks ++ [some t]) h.blocks.length = some t
  rw [listGet_append_len]
  rfl

theorem TensorMap.tensorsOf_eq {h : Heap} {m : TensorMap} {p : Nat} {t : Tensors}
    (hm : m.tensors_ = some p) (ht : h.get p = some t) :
    TensorMap.tensorsOf h m = t.values_ := by
  simp only [TensorMap.tensorsOf, hm, ht]

/-! ### Helper lemmas about the hash-map model -/

@[simp] theorem findVal_nil (k : TensorKey) : FlatHashMap.findVal [] k = none := rfl

theorem findVal_cons (k' : TensorKey) (v' : Tensor) (m : FlatHashMap) (k : TensorKey) :
    FlatHashMap.findVal ((k', v') :: m) k =
      (if k' = k then some v' else FlatHashMap.findVal m k) := rfl

theorem findVal_append_of_none {m1 : FlatHashMap} {k : TensorKey}
    (h : FlatHashMap.findVal m1 k = none) (m2 : FlatHashMap) :
    FlatHashMap.findVal (m1 ++ m2) k = FlatHashMap.findVal m2 k := by
  induction m1 with
  | nil => simp
  | cons x xs ih =>
      rw [findVal_cons] at h
      by_cases he : x.1 = k
      · simp [he] at h
      · rw [List.cons_append, show ((x.1, x.2) :: (xs ++ m2)) = x :: (xs ++ m2) from rfl]
        rw [show (x : TensorKey × Tensor) = (x.1, x.2) from rfl, findVal_cons]
        simp only [he, if_false]
        exact ih (by simpa [he] using h)

theorem findVal_append_of_some {m1 : FlatHashMap} {k : TensorKey} {v : Tensor}
    (h : FlatHashMap.findVal m1 k = some v) (m2 : FlatHashMap) :
    FlatHashMap.findVal (m1 ++ m2) k = some v := by
  induction m1 with
  | nil => simp at h
  | cons x xs ih =>
      rw [show (x : TensorKey × Tensor) = (x.1, x.2) from rfl, findVal_cons] at h
      by_cases he : x.1 = k
      · rw [List.cons_append, show (x : TensorKey × Tensor) = (x.1, x.2) from rfl,
          findVal_cons]
        simpa [he] using h
      · rw [List.cons_append, show (x : TensorKey × Tensor) = (x.1, x.2) from rfl,
          findVal_cons]
        simp only [he, if_false]
        exact ih (by simpa [he] using h)

theorem findVal_none_iff {m : FlatHashMap} {k : TensorKey} :
    FlatHashMap.findVal m k = none ↔ k ∉ m.map Prod.fst := by
  induction m with
  | nil => simp
  | cons x xs ih =>
      rw [show (x : TensorKey × Tensor) = (x.1, x.2) from rfl, findVal_cons]
      by_cases he : x.1 = k
      · simp [he]
      · simp only [he, if_false, List.map_cons, List.mem_cons, ih]
        constructor
        · intro hnot hmem
          cases hmem with
          | inl hl => exact he hl.symm
          | inr hr => exact hnot hr
        · intro hnot hmem
          exact hnot (Or.inr hmem)

theorem listSet_get_self (l : List (Option Tensors)) (n : Nat) :
    listSet l n (listGet l n) = l := by
  induction l generalizing n with
  | nil => rfl
  | cons x xs ih =>
      cases n with
      | zero => rfl
      | succ n => simp [ih]

theorem Heap.set_get_self (h : Heap) (p : Nat) : h.set p (h.get p) = h := by
  show (⟨listSet h.blocks p (listGet h.blocks p)⟩ : Heap) = h
  rw [listSet_get_self]

/-! ### Characterizations of the table operations on a live handle -/

theorem insert_absent {h : Heap} {m : TensorMap} {p : Nat} {t : Tensors}
    {k : TensorKey} (v : Tensor)
    (hm : m.tensors_ = some p) (ht : h.get p = some t)
    (hk : FlatHashMap.findVal t.values_ k = none) :
    TensorMap.insert h m k v =
      (h.set p (some { t with values_ := t.values_ ++ [(k, v)] }), true) := by
  simp only [TensorMap.insert, hm, ht, FlatHashMap.tryEmplace, hk]

theorem insert_present {h : Heap} {m : TensorMap} {p : Nat} {t : Tensors}
    {k : TensorKey} {v0 : Tensor} (v : Tensor)
    (hm : m.tensors_ = some p) (ht : h.get p = some t)
    (hk : FlatHashMap.findVal t.values_ k = some v0) :
    TensorMap.insert h m k v = (h, false) := by
  simp only [TensorMap.insert, hm, ht, FlatHashMap.tryEmplace, hk]
  have he : h.set p (some { t with values_ := t.values_ }) = h := by
    have hs := Heap.set_get_self h p
    rw [ht] at hs
    exact hs
  rw [he]

theorem erase_absent {h : Heap} {m : TensorMap} {p : Nat} {t : Tensors}
    {k : TensorKey}
    (hm : m.tensors_ = some p) (ht : h.get p = some t)
    (hk : FlatHashMap.findVal t.values_ k = none) :
    TensorMap.erase h m k = (h, 0) := by
  simp only [TensorMap.erase, hm, ht, FlatHashMap.eraseKey, hk]
  have he : h.set p (some { t with values_ := t.values_ }) = h := by
    have hs := Heap.set_get_self h p
    rw [ht] at hs
    exact hs
  rw [he]

theorem erase_present {h : Heap} {m : TensorMap} {p : Nat} {t : Tensors}
    {k : TensorKey} {v0 : Tensor}
    (hm : m.tensors_ = some p) (ht : h.get p = some t)
    (hk : FlatHashMap.findVal t.values_ k = some v0) :
    TensorMap.erase h m k =
      (h.set p (some { t with values_ := t.values_.filter (fun q => q.1 != k) }), 1) := by
  simp only [TensorMap.erase, hm, ht, FlatHashMap.eraseKey, hk]

theorem replace_eq {h : Heap} {m : TensorMap} {p : Nat} {t : Tensors}
    (k : TensorKey) (v : Tensor)
    (hm : m.tensors_ = some p) (ht : h.get p = some t) :
    TensorMap.replace h m k v =
      (h.set p (some { t with values_ := FlatHashMap.setVal t.values_ k v }), true) := by
  simp only [TensorMap.replace, hm, Heap.updateValues, ht]

theorem subscript_absent {h : Heap} {m : TensorMap} {p : Nat} {t : Tensors}
    {k : TensorKey}
    (hm : m.tensors_ = some p) (ht : h.get p = some t)
    (hk : FlatHashMap.findVal t.values_ k = none) :
    TensorMap.subscriptOp h m k =
      (h.set p (some { t with values_ := t.values_ ++ [(k, Tensor.defaultT)] }),
       Tensor.defaultT) := by
  simp only [TensorMap.subscriptOp, hm, ht, FlatHashMap.subscript, hk]

theorem subscript_present {h : Heap} {m : TensorMap} {p : Nat} {t : Tensors}
    {k : TensorKey} {v0 : Tensor}
    (hm : m.tensors_ = some p) (ht : h.get p = some t)
    (hk : FlatHashMap.findVal t.values_ k = some v0) :
    TensorMap.subscriptOp h m k = (h, v0) := by
  simp only [TensorMap.subscriptOp, hm, ht, FlatHashMap.subscript, hk]
  have he : h.set p (some { t with values_ := t.values_ }) = h := by
    have hs := Heap.set_get_self h p
    rw [ht] at hs
    exact hs
  rw [he]

theorem find_eq {h : Heap} {m : TensorMap} {p : Nat} {t : Tensors}
    (k : TensorKey)
    (hm : m.tensors_ = some p) (ht : h.get p = some t) :
    TensorMap.find h m k = FlatHashMap.findVal t.values_ k := by
  simp only [TensorMap.find, TensorMap.tensorsOf_eq hm ht]

theorem size_eq {h : Heap} {m : TensorMap} {p : Nat} {t : Tensors}
    (hm : m.tensors_ = some p) (ht : h.get p = some t) :
    TensorMap.size h m = t.values_.length := by
  simp only [TensorMap.size, TensorMap.tensorsOf_eq hm ht]

theorem findVal_map_overwrite {m : FlatHashMap} {k : TensorKey} {v0 : Tensor}
    (hf : FlatHashMap.findVal m k = some v0) (v : Tensor) :
    FlatHashMap.findVal (m.map (fun q => if q.1 = k then (k, v) else q)) k
      = some v := by
  induction m with
  | nil => simp at hf
  | cons x xs ih =>
      by_cases he : x.1 = k
      · simp only [List.map_cons, he, if_true]
        rw [findVal_cons]
        simp
      · simp only [List.map_cons, he, if_false]
        rw [show (x : TensorKey × Tensor) = (x.1, x.2) from rfl, findVal_cons]
        simp only [he, if_false]
        rw [show (x : TensorKey × Tensor) = (x.1, x.2) from rfl, findVal_cons] at hf
        simp only [he, if_false] at hf
        exact ih hf

theorem findVal_setVal_self (m : FlatHashMap) (k : TensorKey) (v : Tensor) :
    FlatHashMap.findVal (FlatHashMap.setVal m k v) k = some v := by
  unfold FlatHashMap.setVal
  cases hf : FlatHashMap.findVal m k with
  | none =>
      rw [findVal_append_of_none hf]
      rw [findVal_cons]
      simp
  | some v0 => exact findVal_map_overwrite hf v

theorem insert_get_other {h : Heap} {m : TensorMap} {pm q : Nat}
    (hm : m.tensors_ = some pm) (hne : q ≠ pm) (k : TensorKey) (v : Tensor) :
    (TensorMap.insert h m k v).1.get q = h.get q := by
  simp only [TensorMap.insert, hm]
  cases hp : h.get pm with
  | none => rfl
  | some t => exact Heap.get_set_ne hne _

theorem erase_get_other {h : Heap} {m : TensorMap} {pm q : Nat}
    (hm : m.tensors_ = some pm) (hne : q ≠ pm) (k : TensorKey) :
    (TensorMap.erase h m k).1.get q = h.get q := by
  simp only [TensorMap.erase, hm]
  cases hp : h.get pm with
  | none => rfl
  | some t => exact Heap.get_set_ne hne _

theorem Copy_eq {h : Heap} {m : TensorMap} {p : Nat} {t : Tensors}
    (hm : m.tensors_ = some p) (ht : h.get p = some t) :
    TensorMap.Copy h m
      = ((h.alloc ⟨[], 1⟩).1.set h.blocks.length (some ⟨t.values_, 1⟩),
         ⟨m.element_shape, m.element_dtype, m.max_num_elements,
          some h.blocks.length⟩) := by
  have h1 : (h.alloc ⟨[], 1⟩).1.get p = some t := by
    rw [Heap.get_alloc_lt (Heap.get_some_lt ht)]
    exact ht
  have h2 : (h.alloc ⟨[], 1⟩).1.get h.blocks.length = some ⟨[], 1⟩ :=
    Heap.get_alloc_new h ⟨[], 1⟩
  have h3 : (h.alloc ⟨[], 1⟩).2 = h.blocks.length := rfl
  simp only [TensorMap.Copy, TensorMap.ctor, Heap.updateValues, h3, h2,
    TensorMap.tensorsOf, hm, h1]

theorem alloc_blocks_length (h : Heap) (t : Tensors) :
    (h.alloc t).1.blocks.length = h.blocks.length + 1 := by
  simp [Heap.alloc]

/-! ### Claim theorems -/

/-- C5: `insert(key, value)` inserts only if the key is absent and returns
whether insertion happened: on an absent key the pair is stored and `true`
is returned; on a present key the call is a no-op — the heap (hence the
stored value and the size) is unchanged — and `false` is returned; in
particular `insert(k, v1)` then `insert(k, v2)` leaves `v1` stored and the
second call returns `false`. -/
theorem C5_insert_only_if_absent (h : Heap) (m : TensorMap) (p : Nat)
    (t : Tensors) (k : TensorKey) (v v1 v2 : Tensor)
    (hm : m.tensors_ = some p) (ht : h.get p = some t) :
    (FlatHashMap.findVal t.values_ k = none →
        (TensorMap.insert h m k v).2 = true ∧
        TensorMap.tensorsOf (TensorMap.insert h m k v).1 m = t.values_ ++ [(k, v)] ∧
        TensorMap.size (TensorMap.insert h m k v).1 m = TensorMap.size h m + 1) ∧
    (∀ v0, FlatHashMap.findVal t.values_ k = some v0 →
        (TensorMap.insert h m k v).2 = false ∧
        (TensorMap.insert h m k v).1 = h) ∧
    (FlatHashMap.findVal t.values_ k = none →
        (TensorMap.insert (TensorMap.insert h m k v1).1 m k v2).2 = false ∧
        TensorMap.find (TensorMap.insert (TensorMap.insert h m k v1).1 m k v2).1 m k
          = some v1) := by
  refine ⟨?_, ?_, ?_⟩
  · intro hk
    rw [insert_absent v hm ht hk]
    have hget : (h.set p (some { t with values_ := t.values_ ++ [(k, v)] })).get p
        = some { t with values_ := t.values_ ++ [(k, v)] } :=
      Heap.get_set_self (Heap.get_some_lt ht) _
    refine ⟨rfl, ?_, ?_⟩
    · rw [TensorMap.tensorsOf_eq hm hget]
    · rw [size_eq hm hget, size_eq hm ht]
      simp
  · intro v0 hk
    rw [insert_present v hm ht hk]
    exact ⟨rfl, rfl⟩
  · intro hk
    rw [insert_absent v1 hm ht hk]
    have hget : (h.set p (some { t with values_ := t.values_ ++ [(k, v1)] })).get p
        = some { t with values_ := t.values_ ++ [(k, v1)] } :=
      Heap.get_set_self (Heap.get_some_lt ht) _
    have hfind : FlatHashMap.findVal
        ({ t with values_ := t.values_ ++ [(k, v1)] } : Tensors).values_ k = some v1 := by
      show FlatHashMap.findVal (t.values_ ++ [(k, v1)]) k = some v1
      rw [findVal_append_of_none hk, findVal_cons]
      simp
    rw [insert_present v2 hm hget hfind]
    refine ⟨rfl, ?_⟩
    rw [find_eq k hm hget]
    exact hfind

/-- Witness for C5 on the concrete one-handle heap: the first insert of `k1`
returns `true`, a second insert of `k1` with a different value returns
`false` and leaves the first value stored. -/
theorem C5_insert_only_if_absent_witness :
    (TensorMap.insert hA mA k1 va).2 = true ∧
    (TensorMap.insert (TensorMap.insert hA mA k1 va).1 mA k1 vb).2 = false ∧
    TensorMap.find (TensorMap.insert (TensorMap.insert hA mA k1 va).1 mA k1 vb).1
      mA k1 = some va := by
  have hth := C5_insert_only_if_absent hA mA 0 ⟨[], 1⟩ k1 va va vb rfl rfl
  exact ⟨(hth.1 rfl).1, (hth.2.2 rfl).1, (hth.2.2 rfl).2⟩

/-- C10: the public `operator[](k)` is a mutation path: on an absent key it
inserts `k ↦ Tensor()` (default value), grows `size()` by 1 and returns that
new value; on a present key it returns the stored value and leaves the table
(heap) unchanged; `replace`, built on `values_[k] = v`, always returns
`true` and leaves `v` stored. -/
theorem C10_subscript_and_replace (h : Heap) (m : TensorMap) (p : Nat)
    (t : Tensors) (k : TensorKey) (v : Tensor)
    (hm : m.tensors_ = some p) (ht : h.get p = some t) :
    (FlatHashMap.findVal t.values_ k = none →
        (TensorMap.subscriptOp h m k).2 = Tensor.defaultT ∧
        TensorMap.tensorsOf (TensorMap.subscriptOp h m k).1 m
          = t.values_ ++ [(k, Tensor.defaultT)] ∧
        TensorMap.size (TensorMap.subscriptOp h m k).1 m = TensorMap.size h m + 1 ∧
        TensorMap.find (TensorMap.subscriptOp h m k).1 m k = some Tensor.defaultT) ∧
    (∀ v0, FlatHashMap.findVal t.values_ k = some v0 →
        TensorMap.subscriptOp h m k = (h, v0)) ∧
    ((TensorMap.replace h m k v).2 = true ∧
        TensorMap.find (TensorMap.replace h m k v).1 m k = some v) := by
  refine ⟨?_, ?_, ?_⟩
  · intro hk
    rw [subscript_absent hm ht hk]
    have hget : (h.set p (some { t with values_ := t.values_ ++ [(k, Tensor.defaultT)] })).get p
        = some { t with values_ := t.values_ ++ [(k, Tensor.defaultT)] } :=
      Heap.get_set_self (Heap.get_some_lt ht) _
    refine ⟨rfl, ?_, ?_, ?_⟩
    · rw [TensorMap.tensorsOf_eq hm hget]
    · rw [size_eq hm hget, size_eq hm ht]
      simp
    · rw [find_eq k hm hget]
      show FlatHashMap.findVal (t.values_ ++ [(k, Tensor.defaultT)]) k
        = some Tensor.defaultT
      rw [findVal_append_of_none hk, findVal_cons]
      simp
  · intro v0 hk
    exact subscript_present hm ht hk
  · rw [replace_eq k v hm ht]
    have hget : (h.set p (some { t with values_ := FlatHashMap.setVal t.values_ k v })).get p
        = some { t with values_ := FlatHashMap.setVal t.values_ k v } :=
      Heap.get_set_self (Heap.get_some_lt ht) _
    refine ⟨rfl, ?_⟩
    rw [find_eq k hm hget]
    exact findVal_setVal_self t.values_ k v

/-- Witness for C10 on the concrete heap with `{k1 ↦ va}`: `operator[](k2)`
default-inserts and grows the size, `operator[](k1)` returns `va` without
touching the heap, and `replace(k1, vb)` returns `true` and overwrites. -/
theorem C10_subscript_and_replace_witness :
    (TensorMap.subscriptOp hB mA k2).2 = Tensor.defaultT ∧
    TensorMap.size (TensorMap.subscriptOp hB mA k2).1 mA = TensorMap.size hB mA + 1 ∧
    TensorMap.subscriptOp hB mA k1 = (hB, va) ∧
    (TensorMap.replace hB mA k1 vb).2 = true ∧
    TensorMap.find (TensorMap.replace hB mA k1 vb).1 mA k1 = some vb := by
  have hth := C10_subscript_and_replace hB mA 0 tB k2 vb rfl rfl
  have hth1 := C10_subscript_and_replace hB mA 0 tB k1 vb rfl rfl
  exact ⟨(hth.1 rfl).1, (hth.1 rfl).2.2.1, hth1.2.1 va rfl, hth1.2.2.1, hth1.2.2.2⟩

/-- C8: `max_num_elements` is advisory only: `insert`, `replace`, `erase`,
`find`, `lookup`, `size` and `keys` behave identically for every value of
`max_num_elements` (in particular for any `0 ≤ max_num_elements ≤ size()`
versus the default `-1`), and `insert` of an absent key still succeeds —
returns `true` and grows the size by 1 — whatever `max_num_elements` is. -/
theorem C8_max_num_elements_advisory (h : Heap) (m : TensorMap)
    (mn1 mn2 : Int) (k : TensorKey) (v : Tensor) :
    (TensorMap.insert h { m with max_num_elements := mn1 } k v
       = TensorMap.insert h { m with max_num_elements := mn2 } k v) ∧
    (TensorMap.replace h { m with max_num_elements := mn1 } k v
       = TensorMap.replace h { m with max_num_elements := mn2 } k v) ∧
    (TensorMap.erase h { m with max_num_elements := mn1 } k
       = TensorMap.erase h { m with max_num_elements := mn2 } k) ∧
    (TensorMap.find h { m with max_num_elements := mn1 } k
       = TensorMap.find h { m with max_num_elements := mn2 } k) ∧
    (TensorMap.lookup h { m with max_num_elements := mn1 } k
       = TensorMap.lookup h { m with max_num_elements := mn2 } k) ∧
    (TensorMap.size h { m with max_num_elements := mn1 }
       = TensorMap.size h { m with max_num_elements := mn2 }) ∧
    (TensorMap.keys h { m with max_num_elements := mn1 }
       = TensorMap.keys h { m with max_num_elements := mn2 }) ∧
    (∀ p t, m.tensors_ = some p → h.get p = some t →
       FlatHashMap.findVal t.values_ k = none →
       (TensorMap.insert h { m with max_num_elements := mn1 } k v).2 = true ∧
       TensorMap.size (TensorMap.insert h { m with max_num_elements := mn1 } k v).1
           { m with max_num_elements := mn1 }
         = TensorMap.size h m + 1) := by
  refine ⟨rfl, rfl, rfl, rfl, rfl, rfl, rfl, ?_⟩
  intro p t hm ht hk
  have hm1 : ({ m with max_num_elements := mn1 } : TensorMap).tensors_ = some p := hm
  rw [insert_absent v hm1 ht hk]
  have hget : (h.set p (some { t with values_ := t.values_ ++ [(k, v)] })).get p
      = some { t with values_ := t.values_ ++ [(k, v)] } :=
    Heap.get_set_self (Heap.get_some_lt ht) _
  refine ⟨rfl, ?_⟩
  rw [size_eq hm1 hget, size_eq hm ht]
  simp

/-- Witness for C8: on the one-entry map `{k1 ↦ va}` with
`max_num_elements = 0` (so `size() = 1` already exceeds the bound), inserting
the absent key `k2` still succeeds and grows the size, exactly as with the
unbounded default `-1`. -/
theorem C8_max_num_elements_advisory_witness :
    (TensorMap.insert hB { mA with max_num_elements := 0 } k2 vb
       = TensorMap.insert hB { mA with max_num_elements := -1 } k2 vb) ∧
    (TensorMap.insert hB { mA with max_num_elements := 0 } k2 vb).2 = true ∧
    TensorMap.size (TensorMap.insert hB { mA with max_num_elements := 0 } k2 vb).1
        { mA with max_num_elements := 0 }
      = TensorMap.size hB mA + 1 := by
  have hth := C8_max_num_elements_advisory hB mA 0 (-1) k2 vb
  have hlast := hth.2.2.2.2.2.2.2 0 tB rfl rfl rfl
  exact ⟨hth.1, hlast.1, hlast.2⟩

/-- C6: the claim fails on the code (code bug): `keys()` pre-sizes its
`std::vector<Tensor>` with `size()` value-initialized `Tensor`s and then
`push_back`s every key, so on the one-entry map `{k1 ↦ va}` it returns two
elements — a default `Tensor` followed by the key — instead of a length-1
sequence holding exactly the key. -/
theorem C6_keys_presize_bug :
    TensorMap.size hB mA = 1 ∧
    TensorMap.keys hB mA = [Tensor.defaultT, Tensor.payload 1] ∧
    (TensorMap.keys hB mA).length ≠ TensorMap.size hB mA := by
  refine ⟨rfl, rfl, ?_⟩
  decide

/-- C1: a plain copy (copy-construction, or copy-assignment into a handle
owning a distinct block) shares one storage: the copy holds the same
`tensors_` pointer as the source, the shared block's reference count grows
by exactly 1 with its entries untouched (no other block changes), and an
insert through the copy is observable through the source's table (same key,
same value) and vice versa. -/
theorem C1_copy_shares_storage (h : Heap) (a c : TensorMap) (p : Nat)
    (t : Tensors) (k : TensorKey) (v : Tensor)
    (hm : a.tensors_ = some p) (ht : h.get p = some t) :
    ((TensorMap.copyCtor h a).2.tensors_ = a.tensors_) ∧
    ((TensorMap.copyCtor h a).1.get p = some { t with refcount := t.refcount + 1 }) ∧
    (∀ q, q ≠ p → (TensorMap.copyCtor h a).1.get q = h.get q) ∧
    (FlatHashMap.findVal t.values_ k = none →
      TensorMap.find
        (TensorMap.insert (TensorMap.copyCtor h a).1 (TensorMap.copyCtor h a).2 k v).1
        a k = some v ∧
      TensorMap.find
        (TensorMap.insert (TensorMap.copyCtor h a).1 a k v).1
        (TensorMap.copyCtor h a).2 k = some v) ∧
    (∀ pc tc, c.tensors_ = some pc → h.get pc = some tc → pc ≠ p →
      (TensorMap.copyAssign h false c a).2.tensors_ = a.tensors_ ∧
      (TensorMap.copyAssign h false c a).1.get p
        = some { t with refcount := t.refcount + 1 }) := by
  have hctor : TensorMap.copyCtor h a
      = (Heap.refBlock h p,
         ⟨a.element_shape, a.element_dtype, a.max_num_elements, some p⟩) := by
    simp only [TensorMap.copyCtor, hm]
  have hb : (TensorMap.copyCtor h a).2.tensors_ = some p := by rw [hctor]
  have hget1 : (TensorMap.copyCtor h a).1.get p
      = some { t with refcount := t.refcount + 1 } := by
    rw [hctor]
    exact Heap.get_refBlock_self ht
  refine ⟨by rw [hb, hm], hget1, ?_, ?_, ?_⟩
  · intro q hq
    rw [hctor]
    exact Heap.get_refBlock_ne hq
  · intro hk
    have hk1 : FlatHashMap.findVal
        ({ t with refcount := t.refcount + 1 } : Tensors).values_ k = none := hk
    constructor
    · rw [insert_absent v hb hget1 hk1]
      have hget2 : ((TensorMap.copyCtor h a).1.set p
          (some { values_ := t.values_ ++ [(k, v)], refcount := t.refcount + 1 })).get p
          = some { values_ := t.values_ ++ [(k, v)], refcount := t.refcount + 1 } := by
        refine Heap.get_set_self ?_ _
        have hlt := Heap.get_some_lt hget1
        exact hlt
      rw [find_eq k hm hget2]
      show FlatHashMap.findVal (t.values_ ++ [(k, v)]) k = some v
      rw [findVal_append_of_none hk, findVal_cons]
      simp
    · rw [insert_absent v hm hget1 hk1]
      have hget2 : ((TensorMap.copyCtor h a).1.set p
          (some { values_ := t.values_ ++ [(k, v)], refcount := t.refcount + 1 })).get p
          = some { values_ := t.values_ ++ [(k, v)], refcount := t.refcount + 1 } := by
        refine Heap.get_set_self ?_ _
        exact Heap.get_some_lt hget1
      rw [find_eq k hb hget2]
      show FlatHashMap.findVal (t.values_ ++ [(k, v)]) k = some v
      rw [findVal_append_of_none hk, findVal_cons]
      simp
  · intro pc tc hc htc hne
    have hassign : TensorMap.copyAssign h false c a
        = (Heap.refBlock (Heap.unrefBlock h pc) p,
           ⟨a.element_shape, a.element_dtype, a.max_num_elements, some p⟩) := by
      simp only [TensorMap.copyAssign, Bool.false_eq_true, if_false, hc, hm]
    have hp1 : (Heap.unrefBlock h pc).get p = some t := by
      rw [Heap.get_unrefBlock_ne (fun e => hne (Eq.symm e))]
      exact ht
    constructor
    · rw [hassign, hm]
    · rw [hassign]
      exact Heap.get_refBlock_self hp1

/-- Witness for C1 on the concrete two-handle heap: copy-constructing from
`a` shares `a`'s block, raises its count to 2, and an insert through the
copy is seen through `a`. -/
theorem C1_copy_shares_storage_witness :
    (TensorMap.copyCtor hC mA).2.tensors_ = mA.tensors_ ∧
    (TensorMap.copyCtor hC mA).1.get 0 = some ⟨[], 2⟩ ∧
    TensorMap.find
      (TensorMap.insert (TensorMap.copyCtor hC mA).1 (TensorMap.copyCtor hC mA).2 k1 va).1
      mA k1 = some va ∧
    (TensorMap.copyAssign hC false mC mA).2.tensors_ = mA.tensors_ := by
  have hth := C1_copy_shares_storage hC mA mC 0 ⟨[], 1⟩ k1 va rfl rfl
  exact ⟨hth.1, hth.2.1, (hth.2.2.2.1 rfl).1, (hth.2.2.2.2 1 ⟨[], 1⟩ rfl rfl (by decide)).1⟩

/-- C2: `b = a.Copy()` yields a handle over fresh storage (a new block,
refcount 1) holding exactly `a`'s key/value pairs, with header fields equal
to `a`'s, and `a`'s own block untouched; afterwards inserting or erasing a
key through `b` never changes `a`'s table contents or size, and inserting
or erasing through `a` never changes `b`'s table contents or size. -/
theorem C2_copy_isolation (h : Heap) (a : TensorMap) (p : Nat) (t : Tensors)
    (k : TensorKey) (v : Tensor)
    (hm : a.tensors_ = some p) (ht : h.get p = some t) :
    ((TensorMap.Copy h a).2.element_shape = a.element_shape ∧
     (TensorMap.Copy h a).2.element_dtype = a.element_dtype ∧
     (TensorMap.Copy h a).2.max_num_elements = a.max_num_elements) ∧
    ((TensorMap.Copy h a).2.tensors_ = some h.blocks.length ∧
     p ≠ h.blocks.length ∧
     (TensorMap.Copy h a).1.get h.blocks.length = some ⟨t.values_, 1⟩ ∧
     (TensorMap.Copy h a).1.get p = some t) ∧
    (TensorMap.tensorsOf
        (TensorMap.insert (TensorMap.Copy h a).1 (TensorMap.Copy h a).2 k v).1 a
       = t.values_ ∧
     TensorMap.size
        (TensorMap.insert (TensorMap.Copy h a).1 (TensorMap.Copy h a).2 k v).1 a
       = t.values_.length ∧
     TensorMap.tensorsOf
        (TensorMap.erase (TensorMap.Copy h a).1 (TensorMap.Copy h a).2 k).1 a
       = t.values_ ∧
     TensorMap.size
        (TensorMap.erase (TensorMap.Copy h a).1 (TensorMap.Copy h a).2 k).1 a
       = t.values_.length) ∧
    (TensorMap.tensorsOf
        (TensorMap.insert (TensorMap.Copy h a).1 a k v).1 (TensorMap.Copy h a).2
       = t.values_ ∧
     TensorMap.size
        (TensorMap.insert (TensorMap.Copy h a).1 a k v).1 (TensorMap.Copy h a).2
       = t.values_.length ∧
     TensorMap.tensorsOf
        (TensorMap.erase (TensorMap.Copy h a).1 a k).1 (TensorMap.Copy h a).2
       = t.values_ ∧
     TensorMap.size
        (TensorMap.erase (TensorMap.Copy h a).1 a k).1 (TensorMap.Copy h a).2
       = t.values_.length) := by
  have hlt : p < h.blocks.length := Heap.get_some_lt ht
  have hne : p ≠ h.blocks.length := Nat.ne_of_lt hlt
  have hcopy := Copy_eq hm ht
  have hb : (TensorMap.Copy h a).2.tensors_ = some h.blocks.length := by rw [hcopy]
  have hlen : h.blocks.length < (h.alloc ⟨[], 1⟩).1.blocks.length := by
    rw [alloc_blocks_length]
    omega
  have hgetnew : (TensorMap.Copy h a).1.get h.blocks.length = some ⟨t.values_, 1⟩ := by
    rw [hcopy]
    exact Heap.get_set_self hlen _
  have hgetp : (TensorMap.Copy h a).1.get p = some t := by
    rw [hcopy]
    show ((h.alloc ⟨[], 1⟩).1.set h.blocks.length (some ⟨t.values_, 1⟩)).get p = some t
    rw [Heap.get_set_ne hne, Heap.get_alloc_lt hlt]
    exact ht
  refine ⟨⟨by rw [hcopy], by rw [hcopy], by rw [hcopy]⟩, ⟨hb, hne, hgetnew, hgetp⟩,
    ?_, ?_⟩
  · have hins : (TensorMap.insert (TensorMap.Copy h a).1 (TensorMap.Copy h a).2 k v).1.get p
        = some t := by
      rw [insert_get_other hb hne k v]
      exact hgetp
    have hers : (TensorMap.erase (TensorMap.Copy h a).1 (TensorMap.Copy h a).2 k).1.get p
        = some t := by
      rw [erase_get_other hb hne k]
      exact hgetp
    exact ⟨TensorMap.tensorsOf_eq hm hins, size_eq hm hins,
      TensorMap.tensorsOf_eq hm hers, size_eq hm hers⟩
  · have hne' : h.blocks.length ≠ p := fun e => hne e.symm
    have hins : (TensorMap.insert (TensorMap.Copy h a).1 a k v).1.get h.blocks.length
        = some ⟨t.values_, 1⟩ := by
      rw [insert_get_other hm hne' k v]
      exact hgetnew
    have hers : (TensorMap.erase (TensorMap.Copy h a).1 a k).1.get h.blocks.length
        = some ⟨t.values_, 1⟩ := by
      rw [erase_get_other hm hne' k]
      exact hgetnew
    exact ⟨TensorMap.tensorsOf_eq (t := ⟨t.values_, 1⟩) hb hins,
      size_eq (t := ⟨t.values_, 1⟩) hb hins,
      TensorMap.tensorsOf_eq (t := ⟨t.values_, 1⟩) hb hers,
      size_eq (t := ⟨t.values_, 1⟩) hb hers⟩

/-- Witness for C2 on the concrete heap with `a`'s table `{k1 ↦ va}`: the
copy sits in a fresh block with refcount 1 and the same single entry, and
inserting `k2` or erasing `k1` through the copy leaves `a`'s table intact. -/
theorem C2_copy_isolation_witness :
    (TensorMap.Copy hB mA).2.tensors_ = some 1 ∧
    (TensorMap.Copy hB mA).1.get 1 = some ⟨[(k1, va)], 1⟩ ∧
    TensorMap.tensorsOf
        (TensorMap.insert (TensorMap.Copy hB mA).1 (TensorMap.Copy hB mA).2 k2 vb).1 mA
      = [(k1, va)] ∧
    TensorMap.tensorsOf
        (TensorMap.erase (TensorMap.Copy hB mA).1 (TensorMap.Copy hB mA).2 k1).1 mA
      = [(k1, va)] ∧
    TensorMap.tensorsOf
        (TensorMap.erase (TensorMap.Copy hB mA).1 mA k1).1 (TensorMap.Copy hB mA).2
      = [(k1, va)] := by
  have hth := C2_copy_isolation hB mA 0 tB k2 vb rfl rfl
  have hth1 := C2_copy_isolation hB mA 0 tB k1 vb rfl rfl
  exact ⟨hth.2.1.1, hth.2.1.2.2.1, hth.2.2.1.1, hth1.2.2.1.2.2.1, hth1.2.2.2.2.2.1⟩

/-- C3: reference-count accounting: a default-constructed handle owns a
block with count 1 (`RefCountIsOne` true); copying it raises the shared
count to 2 (`RefCountIsOne` false); destroying the copy brings the count
back to 1, making the original exclusive again; destroying the original
then frees the block (its slot becomes `none`); in general destruction
decrements the count and frees the block exactly when the count was 1,
touching no other slot, and destruction through a pointer whose block is
already gone changes nothing (no double free). -/
theorem C3_refcount_accounting (h : Heap) :
    ((TensorMap.ctor h).1.get h.blocks.length = some ⟨[], 1⟩ ∧
     TensorMap.RefCountIsOne (TensorMap.ctor h).1 (TensorMap.ctor h).2 = true) ∧
    ((TensorMap.copyCtor (TensorMap.ctor h).1 (TensorMap.ctor h).2).1.get
        h.blocks.length = some ⟨[], 2⟩ ∧
     TensorMap.RefCountIsOne
        (TensorMap.copyCtor (TensorMap.ctor h).1 (TensorMap.ctor h).2).1
        (TensorMap.ctor h).2 = false) ∧
    ((TensorMap.destruct
        (TensorMap.copyCtor (TensorMap.ctor h).1 (TensorMap.ctor h).2).1
        (TensorMap.copyCtor (TensorMap.ctor h).1 (TensorMap.ctor h).2).2).get
        h.blocks.length = some ⟨[], 1⟩ ∧
     TensorMap.RefCountIsOne
        (TensorMap.destruct
          (TensorMap.copyCtor (TensorMap.ctor h).1 (TensorMap.ctor h).2).1
          (TensorMap.copyCtor (TensorMap.ctor h).1 (TensorMap.ctor h).2).2)
        (TensorMap.ctor h).2 = true) ∧
    ((TensorMap.destruct
        (TensorMap.destruct
          (TensorMap.copyCtor (TensorMap.ctor h).1 (TensorMap.ctor h).2).1
          (TensorMap.copyCtor (TensorMap.ctor h).1 (TensorMap.ctor h).2).2)
        (TensorMap.ctor h).2).get h.blocks.length = none) ∧
    (∀ m p t, m.tensors_ = some p → h.get p = some t →
       (TensorMap.destruct h m).get p
         = (if t.refcount ≤ 1 then none
            else some { t with refcount := t.refcount - 1 }) ∧
       (∀ q, q ≠ p → (TensorMap.destruct h m).get q = h.get q)) ∧
    (∀ m p, m.tensors_ = some p → h.get p = none → TensorMap.destruct h m = h) := by
  have ha : (TensorMap.ctor h).2.tensors_ = some h.blocks.length := rfl
  have hg1 : (TensorMap.ctor h).1.get h.blocks.length = some ⟨[], 1⟩ :=
    Heap.get_alloc_new h ⟨[], 1⟩
  have hcopy : TensorMap.copyCtor (TensorMap.ctor h).1 (TensorMap.ctor h).2
      = (Heap.refBlock (TensorMap.ctor h).1 h.blocks.length,
         ⟨(TensorMap.ctor h).2.element_shape, (TensorMap.ctor h).2.element_dtype,
          (TensorMap.ctor h).2.max_num_elements, some h.blocks.length⟩) := by
    simp only [TensorMap.copyCtor, ha]
  have hb : (TensorMap.copyCtor (TensorMap.ctor h).1 (TensorMap.ctor h).2).2.tensors_
      = some h.blocks.length := by rw [hcopy]
  have hg2 : (TensorMap.copyCtor (TensorMap.ctor h).1 (TensorMap.ctor h).2).1.get
      h.blocks.length = some ⟨[], 2⟩ := by
    rw [hcopy]
    exact Heap.get_refBlock_self hg1
  have hdes1 : TensorMap.destruct
      (TensorMap.copyCtor (TensorMap.ctor h).1 (TensorMap.ctor h).2).1
      (TensorMap.copyCtor (TensorMap.ctor h).1 (TensorMap.ctor h).2).2
      = Heap.unrefBlock (TensorMap.copyCtor (TensorMap.ctor h).1 (TensorMap.ctor h).2).1
          h.blocks.length := by
    simp only [TensorMap.destruct, hb]
  have hg3 : (TensorMap.destruct
      (TensorMap.copyCtor (TensorMap.ctor h).1 (TensorMap.ctor h).2).1
      (TensorMap.copyCtor (TensorMap.ctor h).1 (TensorMap.ctor h).2).2).get
      h.blocks.length = some ⟨[], 1⟩ := by
    rw [hdes1, Heap.get_unrefBlock_self hg2]
    norm_num
  have hdes2 : TensorMap.destruct
      (TensorMap.destruct
        (TensorMap.copyCtor (TensorMap.ctor h).1 (TensorMap.ctor h).2).1
        (TensorMap.copyCtor (TensorMap.ctor h).1 (TensorMap.ctor h).2).2)
      (TensorMap.ctor h).2
      = Heap.unrefBlock
          (TensorMap.destruct
            (TensorMap.copyCtor (TensorMap.ctor h).1 (TensorMap.ctor h).2).1
            (TensorMap.copyCtor (TensorMap.ctor h).1 (TensorMap.ctor h).2).2)
          h.blocks.length := by
    simp only [TensorMap.destruct, ha]
  refine ⟨⟨hg1, ?_⟩, ⟨hg2, ?_⟩, ⟨hg3, ?_⟩, ?_, ?_, ?_⟩
  · simp only [TensorMap.RefCountIsOne, ha, hg1]
    rfl
  · simp only [TensorMap.RefCountIsOne, ha, hg2]
    rfl
  · simp only [TensorMap.RefCountIsOne, ha, hg3]
    rfl
  · rw [hdes2, Heap.get_unrefBlock_self hg3]
    norm_num
  · intro m p t hm ht
    have hd : TensorMap.destruct h m = Heap.unrefBlock h p := by
      simp only [TensorMap.destruct, hm]
    refine ⟨by rw [hd, Heap.get_unrefBlock_self ht], ?_⟩
    intro q hq
    rw [hd]
    exact Heap.get_unrefBlock_ne hq
  · intro m p hm hp
    simp only [TensorMap.destruct, hm, Heap.unrefBlock, hp]

/-- Witness for C3 on the concrete one-block heap `hA`: the scenario holds
starting from the empty heap, destroying the only handle frees block 0, and
a handle whose pointed-to slot is dead destructs as a no-op. -/
theorem C3_refcount_accounting_witness :
    TensorMap.RefCountIsOne (TensorMap.ctor ⟨[]⟩).1 (TensorMap.ctor ⟨[]⟩).2 = true ∧
    TensorMap.RefCountIsOne
      (TensorMap.copyCtor (TensorMap.ctor ⟨[]⟩).1 (TensorMap.ctor ⟨[]⟩).2).1
      (TensorMap.ctor ⟨[]⟩).2 = false ∧
    TensorMap.RefCountIsOne
      (TensorMap.destruct
        (TensorMap.copyCtor (TensorMap.ctor ⟨[]⟩).1 (TensorMap.ctor ⟨[]⟩).2).1
        (TensorMap.copyCtor (TensorMap.ctor ⟨[]⟩).1 (TensorMap.ctor ⟨[]⟩).2).2)
      (TensorMap.ctor ⟨[]⟩).2 = true ∧
    (TensorMap.destruct hA mA).get 0 = none ∧
    TensorMap.destruct hA mC = hA := by
  have hth := C3_refcount_accounting ⟨[]⟩
  have hthA := C3_refcount_accounting hA
  have hfree := (hthA.2.2.2.2.1 mA 0 ⟨[], 1⟩ rfl rfl).1
  refine ⟨hth.1.2, hth.2.1.2, hth.2.2.1.2, ?_, hthA.2.2.2.2.2 mC 1 rfl rfl⟩
  · rw [hfree]
    norm_num

theorem zerosFill_eq {src : FlatHashMap} (acc : FlatHashMap)
    (hk : ∀ q ∈ src, FlatHashMap.findVal acc q.1 = none)
    (hnd : (src.map Prod.fst).Nodup) :
    FlatHashMap.zerosFill src acc
      = acc ++ src.map (fun q => (q.1, Tensor.scalarInt 0)) := by
  induction src generalizing acc with
  | nil => simp [FlatHashMap.zerosFill]
  | cons x xs ih =>
      have hx : FlatHashMap.findVal acc x.1 = none := hk x (List.mem_cons_self x xs)
      have hstep : FlatHashMap.tryEmplace acc x.1 (Tensor.scalarInt 0)
          = (acc ++ [(x.1, Tensor.scalarInt 0)], true) := by
        simp only [FlatHashMap.tryEmplace, hx]
      have hxmem : x.1 ∉ xs.map Prod.fst := by
        have := hnd
        rw [List.map_cons, List.nodup_cons] at this
        exact this.1
      have hnd' : (xs.map Prod.fst).Nodup := by
        have := hnd
        rw [List.map_cons, List.nodup_cons] at this
        exact this.2
      show FlatHashMap.zerosFill ((x.1, x.2) :: xs) acc = _
      simp only [FlatHashMap.zerosFill]
      rw [hstep]
      rw [ih (acc ++ [(x.1, Tensor.scalarInt 0)]) ?_ hnd']
      · simp
      · intro q hq
        rw [findVal_append_of_none (hk q (List.mem_cons_of_mem x hq)), findVal_cons]
        have hne : ¬x.1 = q.1 := by
          intro he
          exact hxmem (he ▸ List.mem_map_of_mem Prod.fst hq)
        simp [hne]

theorem Zeros_eq {h : Heap} {m : TensorMap} {p : Nat} {t : Tensors}
    (hm : m.tensors_ = some p) (ht : h.get p = some t)
    (hnd : (t.values_.map Prod.fst).Nodup) :
    TensorMap.Zeros h m
      = ((h.alloc ⟨[], 1⟩).1.set h.blocks.length
           (some ⟨t.values_.map (fun q => (q.1, Tensor.scalarInt 0)), 1⟩),
         ⟨m.element_shape, m.element_dtype, m.max_num_elements,
          some h.blocks.length⟩) := by
  have h1 : (h.alloc ⟨[], 1⟩).1.get p = some t := by
    rw [Heap.get_alloc_lt (Heap.get_some_lt ht)]
    exact ht
  have h2 : (h.alloc ⟨[], 1⟩).1.get h.blocks.length = some ⟨[], 1⟩ :=
    Heap.get_alloc_new h ⟨[], 1⟩
  have h3 : (h.alloc ⟨[], 1⟩).2 = h.blocks.length := rfl
  have hz : FlatHashMap.zerosFill t.values_ []
      = t.values_.map (fun q => (q.1, Tensor.scalarInt 0)) := by
    rw [zerosFill_eq [] (fun q _ => rfl) hnd]
    simp
  simp only [TensorMap.Zeros, TensorMap.ctor, Heap.updateValues, h3, h2,
    TensorMap.tensorsOf, hm, h1, hz]

/-- C7: `m.Zeros()` produces a fresh handle with `m`'s header fields over a
new storage block whose table has exactly `m`'s key set with every value
replaced by `Tensor(0)`, leaving `m`'s block untouched; the two are
storage-independent: inserting through either does not change the other's
table. -/
theorem C7_zeros_structural_match (h : Heap) (m : TensorMap) (p : Nat)
    (t : Tensors) (k : TensorKey) (v : Tensor)
    (hm : m.tensors_ = some p) (ht : h.get p = some t)
    (hnd : (t.values_.map Prod.fst).Nodup) :
    ((TensorMap.Zeros h m).2.element_shape = m.element_shape ∧
     (TensorMap.Zeros h m).2.element_dtype = m.element_dtype ∧
     (TensorMap.Zeros h m).2.max_num_elements = m.max_num_elements) ∧
    ((TensorMap.Zeros h m).2.tensors_ = some h.blocks.length ∧
     p ≠ h.blocks.length ∧
     (TensorMap.Zeros h m).1.get p = some t) ∧
    (TensorMap.tensorsOf (TensorMap.Zeros h m).1 (TensorMap.Zeros h m).2
       = t.values_.map (fun q => (q.1, Tensor.scalarInt 0)) ∧
     (TensorMap.tensorsOf (TensorMap.Zeros h m).1 (TensorMap.Zeros h m).2).map Prod.fst
       = t.values_.map Prod.fst ∧
     (∀ q, q ∈ TensorMap.tensorsOf (TensorMap.Zeros h m).1 (TensorMap.Zeros h m).2 →
        q.2 = Tensor.scalarInt 0)) ∧
    (TensorMap.tensorsOf
        (TensorMap.insert (TensorMap.Zeros h m).1 (TensorMap.Zeros h m).2 k v).1 m
       = t.values_ ∧
     TensorMap.tensorsOf
        (TensorMap.insert (TensorMap.Zeros h m).1 m k v).1 (TensorMap.Zeros h m).2
       = t.values_.map (fun q => (q.1, Tensor.scalarInt 0))) := by
  have hlt : p < h.blocks.length := Heap.get_some_lt ht
  have hne : p ≠ h.blocks.length := Nat.ne_of_lt hlt
  have hzeq := Zeros_eq hm ht hnd
  have hb : (TensorMap.Zeros h m).2.tensors_ = some h.blocks.length := by rw [hzeq]
  have hlen : h.blocks.length < (h.alloc ⟨[], 1⟩).1.blocks.length := by
    rw [alloc_blocks_length]
    omega
  have hgetnew : (TensorMap.Zeros h m).1.get h.blocks.length
      = some ⟨t.values_.map (fun q => (q.1, Tensor.scalarInt 0)), 1⟩ := by
    rw [hzeq]
    exact Heap.get_set_self hlen _
  have hgetp : (TensorMap.Zeros h m).1.get p = some t := by
    rw [hzeq]
    show ((h.alloc ⟨[], 1⟩).1.set h.blocks.length _).get p = some t
    rw [Heap.get_set_ne hne, Heap.get_alloc_lt hlt]
    exact ht
  have htens : TensorMap.tensorsOf (TensorMap.Zeros h m).1 (TensorMap.Zeros h m).2
      = t.values_.map (fun q => (q.1, Tensor.scalarInt 0)) :=
    TensorMap.tensorsOf_eq (t := ⟨t.values_.map (fun q => (q.1, Tensor.scalarInt 0)), 1⟩)
      hb hgetnew
  refine ⟨⟨by rw [hzeq], by rw [hzeq], by rw [hzeq]⟩, ⟨hb, hne, hgetp⟩,
    ⟨htens, ?_, ?_⟩, ?_, ?_⟩
  · rw [htens, List.map_map]
    rfl
  · intro q hq
    rw [htens] at hq
    obtain ⟨r, hr, he⟩ := List.mem_map.mp hq
    rw [← he]
  · have hins : (TensorMap.insert (TensorMap.Zeros h m).1 (TensorMap.Zeros h m).2 k v).1.get p
        = some t := by
      rw [insert_get_other hb hne k v]
      exact hgetp
    exact TensorMap.tensorsOf_eq hm hins
  · have hne' : h.blocks.length ≠ p := fun e => hne e.symm
    have hins : (TensorMap.insert (TensorMap.Zeros h m).1 m k v).1.get h.blocks.length
        = some ⟨t.values_.map (fun q => (q.1, Tensor.scalarInt 0)), 1⟩ := by
      rw [insert_get_other hm hne' k v]
      exact hgetnew
    exact TensorMap.tensorsOf_eq
      (t := ⟨t.values_.map (fun q => (q.1, Tensor.scalarInt 0)), 1⟩) hb hins

/-- Witness for C7 on the concrete heap with `a`'s table `{k1 ↦ va}`: the
zeros map holds exactly `{k1 ↦ Tensor(0)}` in a fresh block, and inserting
`k2` through it leaves `a`'s table intact. -/
theorem C7_zeros_structural_match_witness :
    TensorMap.tensorsOf (TensorMap.Zeros hB mA).1 (TensorMap.Zeros hB mA).2
      = [(k1, Tensor.scalarInt 0)] ∧
    (TensorMap.Zeros hB mA).2.tensors_ = some 1 ∧
    TensorMap.tensorsOf
        (TensorMap.insert (TensorMap.Zeros hB mA).1 (TensorMap.Zeros hB mA).2 k2 vb).1 mA
      = [(k1, va)] := by
  have hth := C7_zeros_structural_match hB mA 0 tB k2 vb rfl rfl (by decide)
  exact ⟨hth.2.2.1.1, hth.2.1.1, hth.2.2.2.1⟩

/-- C9: move-construction and move-assignment relocate the storage pointer
with no reference-count change (the heap is untouched) and move the header
fields; move-assignment is a no-op under self-move; a handle moved from by
move-construction holds a null pointer, so its destruction frees nothing
(no block is freed a second time), and the source of a non-self
move-assignment ends up holding the assignee's old pointer, so destroying
it releases exactly the reference the assignee gave up. -/
theorem C9_move_semantics (h : Heap) (a rhs : TensorMap) :
    ((TensorMap.moveCtor h rhs).1 = h ∧
     (TensorMap.moveCtor h rhs).2.1.tensors_ = rhs.tensors_ ∧
     (TensorMap.moveCtor h rhs).2.1.element_shape = rhs.element_shape ∧
     (TensorMap.moveCtor h rhs).2.1.element_dtype = rhs.element_dtype ∧
     (TensorMap.moveCtor h rhs).2.1.max_num_elements = rhs.max_num_elements ∧
     (TensorMap.moveCtor h rhs).2.2.tensors_ = none) ∧
    (TensorMap.destruct h (TensorMap.moveCtor h rhs).2.2 = h) ∧
    (TensorMap.moveAssign h true a a = (h, a, a)) ∧
    ((TensorMap.moveAssign h false a rhs).1 = h ∧
     (TensorMap.moveAssign h false a rhs).2.1.tensors_ = rhs.tensors_ ∧
     (TensorMap.moveAssign h false a rhs).2.1.element_shape = rhs.element_shape ∧
     (TensorMap.moveAssign h false a rhs).2.1.element_dtype = rhs.element_dtype ∧
     (TensorMap.moveAssign h false a rhs).2.1.max_num_elements = rhs.max_num_elements ∧
     (TensorMap.moveAssign h false a rhs).2.2.tensors_ = a.tensors_ ∧
     TensorMap.destruct h (TensorMap.moveAssign h false a rhs).2.2
       = TensorMap.destruct h a) := by
  refine ⟨⟨rfl, rfl, rfl, rfl, rfl, rfl⟩, rfl, ?_, ?_⟩
  · simp [TensorMap.moveAssign]
  · refine ⟨?_, ?_, ?_, ?_, ?_, ?_, ?_⟩ <;> simp [TensorMap.moveAssign, TensorMap.destruct]

/-- C4: decode of encode reconstructs a value-equal map: `Decode (Encode m)`
yields a handle whose header fields equal `m`'s and whose table holds
exactly `m`'s key/value pairs (for the empty map, one-entry maps and larger
maps alike), in a fresh storage block distinct from `m`'s. -/
theorem C4_encode_decode_roundtrip (h : Heap) (m : TensorMap) (p : Nat)
    (t : Tensors) (hm : m.tensors_ = some p) (ht : h.get p = some t) :
    (TensorMap.Decode h (TensorMap.Encode h m)).2.element_shape = m.element_shape ∧
    (TensorMap.Decode h (TensorMap.Encode h m)).2.element_dtype = m.element_dtype ∧
    (TensorMap.Decode h (TensorMap.Encode h m)).2.max_num_elements
      = m.max_num_elements ∧
    TensorMap.tensorsOf (TensorMap.Decode h (TensorMap.Encode h m)).1
        (TensorMap.Decode h (TensorMap.Encode h m)).2
      = TensorMap.tensorsOf h m ∧
    (TensorMap.Decode h (TensorMap.Encode h m)).2.tensors_ ≠ m.tensors_ := by
  have h2 : (h.alloc ⟨[], 1⟩).1.get h.blocks.length = some ⟨[], 1⟩ :=
    Heap.get_alloc_new h ⟨[], 1⟩
  have h3 : (h.alloc ⟨[], 1⟩).2 = h.blocks.length := rfl
  have hdec : TensorMap.Decode h (TensorMap.Encode h m)
      = ((h.alloc ⟨[], 1⟩).1.set h.blocks.length
           (some ⟨TensorMap.tensorsOf h m, 1⟩),
         ⟨m.element_shape, m.element_dtype, m.max_num_elements,
          some h.blocks.length⟩) := by
    simp only [TensorMap.Decode, TensorMap.Encode, TensorMap.ctor,
      Heap.updateValues, h3, h2]
  have hlen : h.blocks.length < (h.alloc ⟨[], 1⟩).1.blocks.length := by
    rw [alloc_blocks_length]
    omega
  have hb : (TensorMap.Decode h (TensorMap.Encode h m)).2.tensors_
      = some h.blocks.length := by rw [hdec]
  have hgetnew : (TensorMap.Decode h (TensorMap.Encode h m)).1.get h.blocks.length
      = some ⟨TensorMap.tensorsOf h m, 1⟩ := by
    rw [hdec]
    exact Heap.get_set_self hlen _
  refine ⟨by rw [hdec], by rw [hdec], by rw [hdec], ?_, ?_⟩
  · exact TensorMap.tensorsOf_eq (t := ⟨TensorMap.tensorsOf h m, 1⟩) hb hgetnew
  · rw [hb, hm]
    intro he
    have hlt : p < h.blocks.length := Heap.get_some_lt ht
    have : h.blocks.length = p := by injection he
    omega

/-- Witness for C4 on the concrete heap with `a`'s table `{k1 ↦ va}`: the
decoded map has `a`'s header fields and exactly `a`'s single entry, in a
different block. -/
theorem C4_encode_decode_roundtrip_witness :
    TensorMap.tensorsOf (TensorMap.Decode hB (TensorMap.Encode hB mA)).1
        (TensorMap.Decode hB (TensorMap.Encode hB mA)).2
      = [(k1, va)] ∧
    (TensorMap.Decode hB (TensorMap.Encode hB mA)).2.max_num_elements
      = mA.max_num_elements ∧
    (TensorMap.Decode hB (TensorMap.Encode hB mA)).2.tensors_ ≠ mA.tensors_ := by
  have hth := C4_encode_decode_roundtrip hB mA 0 tB rfl rfl
  exact ⟨hth.2.2.2.1, hth.2.2.1, hth.2.2.2.2⟩

end TensorMapSpec
